import Mathlib

/-!
Verification development for the numerical core of the EstimaMIPNacional
repository: the GRAS biproportional balancer (GRAS.py), the proportional
allocator (SupportFunctions_V3.py), the sector production-share matrix
(Main_V3.py), and the markdown adjustment, chained price indexes and
double-deflation steps (Deflaciona_MIPs.py).

Modelling conventions.  Matrices are functions on Fin types, so the shape
checks at the top of gras (GRAS.py, lines 54-67) cannot fail and are not
modelled.  Division-only routines are embedded over the rationals; a numpy
division whose denominator is zero produces NaN or an infinity, and every
such division in the embedded code is followed in the source by an
np.nan_to_num sweep or an np.where guard, which the embedding folds into an
explicit case split on the denominator.  GRAS takes real square roots
(np.sqrt), so its embedding lives over the reals, with np.sqrt modelled by
Real.sqrt; np.sqrt of a negative argument yields NaN in the source, while
Real.sqrt yields 0, and every theorem below stays inside the region where
the argument of the square root is nonnegative.
-/

namespace Estima

/-- Division as computed by numpy followed by np.nan_to_num(., nan=0, posinf=0,
neginf=0): a zero denominator yields NaN (0/0) or an infinity (x/0), which the
sweep replaces by 0. -/
def divnan (x y : ℚ) : ℚ := if y = 0 then 0 else x / y

/-- SupportFunctions_V3.distribution_matrix_calcul, line 107:
mTotalConsum = np.concatenate((mIntermConsum, mDemand), axis=1). -/
def mTotalConsum {p a b : ℕ} (mIntermConsum : Fin p → Fin a → ℚ)
    (mDemand : Fin p → Fin b → ℚ) : Fin p → Fin (a + b) → ℚ :=
  fun i => Fin.append (mIntermConsum i) (mDemand i)

/-- SupportFunctions_V3.distribution_matrix_calcul, line 111:
vTotalProducts = np.sum(mTotalConsum, axis=1). -/
def vTotalProducts {p a b : ℕ} (mIntermConsum : Fin p → Fin a → ℚ)
    (mDemand : Fin p → Fin b → ℚ) : Fin p → ℚ :=
  fun i => ∑ k, mTotalConsum mIntermConsum mDemand i k

/-- SupportFunctions_V3.distribution_matrix_calcul, lines 114-116:
mDistribution = mTotalConsum / vTotalProducts[:, None], with NaN and
infinities (rows whose total is zero) replaced by 0 via np.nan_to_num. -/
def mDistribution {p a b : ℕ} (mIntermConsum : Fin p → Fin a → ℚ)
    (mDemand : Fin p → Fin b → ℚ) : Fin p → Fin (a + b) → ℚ :=
  fun i k =>
    divnan (mTotalConsum mIntermConsum mDemand i k)
      (vTotalProducts mIntermConsum mDemand i)

/-- SupportFunctions_V3.calculation_margin, line 134:
vCol = mMatrixInput[:, nColRef]. -/
def vColRef {p o : ℕ} (mMatrixInput : Fin p → Fin o → ℚ) (nColRef : Fin o) :
    Fin p → ℚ :=
  fun i => mMatrixInput i nColRef

/-- SupportFunctions_V3.calculation_margin, lines 137-140: the rows to erase
are np.arange(e1, e2 + 1), and nTotMargin = np.sum(vCol[vRowErase]). -/
def nTotMargin {p o : ℕ} (mMatrixInput : Fin p → Fin o → ℚ) (nColRef : Fin o)
    (e1 e2 : ℕ) : ℚ :=
  ∑ i in Finset.univ.filter (fun i : Fin p => e1 ≤ i.val ∧ i.val ≤ e2),
    vColRef mMatrixInput nColRef i

/-- SupportFunctions_V3.calculation_margin, lines 144-152: column sums of
vCol[:, None] * mAlpha over the rows NOT in the erase range. -/
def vTotMarginSector {p c o : ℕ} (mAlpha : Fin p → Fin c → ℚ)
    (mMatrixInput : Fin p → Fin o → ℚ) (nColRef : Fin o) (e1 e2 : ℕ) :
    Fin c → ℚ :=
  fun j =>
    ∑ i in Finset.univ.filter (fun i : Fin p => ¬(e1 ≤ i.val ∧ i.val ≤ e2)),
      vColRef mMatrixInput nColRef i * mAlpha i j

/-- SupportFunctions_V3.calculation_margin, lines 133-162.  Rows outside the
erase range hold vCol[:, None] * mAlpha; rows in the erase range are
overwritten by -vMultip[:, None] * vTotMarginSector[None, :], where
vMultip = vCol[vRowErase] / nTotMargin with NaN and infinities (a zero
nTotMargin) replaced by 0 via np.nan_to_num (lines 155-156). -/
def calculation_margin {p c o : ℕ} (mAlpha : Fin p → Fin c → ℚ)
    (mMatrixInput : Fin p → Fin o → ℚ) (nColRef : Fin o) (e1 e2 : ℕ) :
    Fin p → Fin c → ℚ :=
  fun i j =>
    if e1 ≤ i.val ∧ i.val ≤ e2 then
      -(divnan (vColRef mMatrixInput nColRef i)
          (nTotMargin mMatrixInput nColRef e1 e2)) *
        vTotMarginSector mAlpha mMatrixInput nColRef e1 e2 j
    else vColRef mMatrixInput nColRef i * mAlpha i j

/-- Main_V3.py, line 358: mProductionTrans = mProduction.T. -/
def mProductionTrans {p s : ℕ} (mProduction : Fin p → Fin s → ℚ) :
    Fin s → Fin p → ℚ :=
  fun i j => mProduction j i

/-- Main_V3.py, line 361:
vRowTotProductionTrans = np.sum(mProductionTrans, axis=0). -/
def vRowTotProductionTrans {p s : ℕ} (mProduction : Fin p → Fin s → ℚ) :
    Fin p → ℚ :=
  fun j => ∑ i, mProductionTrans mProduction i j

/-- Main_V3.py, lines 365-367 (the same formula builds arr_mD in
Deflaciona_MIPs.py, lines 529-531): mD = mProductionTrans divided
columnwise by the product totals, with NaN and infinities (products of zero
total production) replaced by 0 via np.nan_to_num. -/
def mD {p s : ℕ} (mProduction : Fin p → Fin s → ℚ) : Fin s → Fin p → ℚ :=
  fun i j =>
    divnan (mProductionTrans mProduction i j) (vRowTotProductionTrans mProduction j)

/-- Deflaciona_MIPs.py, line 371: markdown shares of the current-year
production matrix, mMarkdown_ProductionTrans = mProductionTrans / vX[:, None]
with vX = np.sum(mProduction, axis=0) the sector (row) totals of the
transposed matrix.  The source applies no nan_to_num here; a zero row total
cannot reach the value of an adjusted cell in the statements proved below
except multiplied into a cell that is itself zero. -/
def mMarkdown_ProductionTrans {s q : ℕ} (cur : Fin s → Fin q → ℚ) :
    Fin s → Fin q → ℚ :=
  fun i j => cur i j / (∑ k, cur i k)

/-- Deflaciona_MIPs.py, lines 377-381:
np.where(isinf(deflator) | (deflator == 0), mMarkdown * vXLY[:, None],
mProductionTransLY), where deflator = cur / prior cellwise.  In numpy the
deflator is an infinity iff prior = 0 and cur != 0, and equals 0 iff cur = 0
and prior != 0; a 0/0 cell gives NaN, which passes neither test, so the
observed prior-year value is kept there. -/
def mProductionTransLY_Adjusted {s q : ℕ} (cur prior : Fin s → Fin q → ℚ) :
    Fin s → Fin q → ℚ :=
  fun i j =>
    if (prior i j = 0 ∧ cur i j ≠ 0) ∨ (cur i j = 0 ∧ prior i j ≠ 0) then
      mMarkdown_ProductionTrans cur i j * (∑ k, prior i k)
    else prior i j

/-- Deflaciona_MIPs.py, line 374: markdown shares of the current-year
consumption matrix, mConsumBasePrice / np.sum(mConsumBasePrice, 0)[None, :]. -/
def mMarkdown_ConsumBasePrice {p c : ℕ} (cur : Fin p → Fin c → ℚ) :
    Fin p → Fin c → ℚ :=
  fun i j => cur i j / (∑ k, cur k j)

/-- Deflaciona_MIPs.py, lines 382-386: the analogue of
mProductionTransLY_Adjusted for the consumption matrix, rescaled by the
prior-year column totals np.sum(mConsumBasePriceLY, 0). -/
def mConsumBasePriceLY_Adjusted {p c : ℕ} (cur prior : Fin p → Fin c → ℚ) :
    Fin p → Fin c → ℚ :=
  fun i j =>
    if (prior i j = 0 ∧ cur i j ≠ 0) ∨ (cur i j = 0 ∧ prior i j ≠ 0) then
      mMarkdown_ConsumBasePrice cur i j * (∑ k, prior k j)
    else prior i j

/-- Deflaciona_MIPs.py, lines 106-119: every index array is allocated as
zeros and its base-year slice (position 0) is set to 100.  The cell type ι
covers all six structural series (cellwise matrices, sector, product and
demand vectors, and the scalar aggregate index). -/
def indexInit {ι : Type} : ℕ → ι → ℚ := fun y _ => if y = 0 then 100 else 0

/-- Deflaciona_MIPs.py, lines 418-435: the body of the chaining loop for one
year y writes slice y of the index array as deflator(y) * index(y - 1),
leaving every other slice unchanged. -/
def writeYearIndex {ι : Type} (d : ℕ → ι → ℚ) (arr : ℕ → ι → ℚ) (y : ℕ) :
    ℕ → ι → ℚ :=
  fun y2 i => if y2 = y then d y i * arr (y - 1) i else arr y2 i

/-- The chaining loop of Deflaciona_MIPs.py: starting from the initialised
array, the years 1..nYears are processed in order, each writing its own
slice.  d y is the (recalculated, NaN-adjusted) deflator of year y. -/
def chainedIndex {ι : Type} (d : ℕ → ι → ℚ) : ℕ → ℕ → ι → ℚ
  | 0 => indexInit
  | n + 1 => writeYearIndex d (chainedIndex d n) (n + 1)

/-- Deflaciona_MIPs.py, lines 456-457 (deflation step 1): the current-price
array divided cellwise by the chained index, times 100. -/
def arrConsumBasePrices_Deflated1 {p c : ℕ}
    (arr0 idx : ℕ → Fin p → Fin c → ℚ) : ℕ → Fin p → Fin c → ℚ :=
  fun y i j => arr0 y i j / idx y i j * 100

/-- Deflaciona_MIPs.py, lines 480-482 (deflation step 2): the step-1 array
multiplied cellwise by the chained index and divided by the aggregate VPB
chained index of the year. -/
def arrConsumBasePrices_Deflated2 {p c : ℕ}
    (arr0 idx : ℕ → Fin p → Fin c → ℚ) (vpbIdx : ℕ → ℚ) :
    ℕ → Fin p → Fin c → ℚ :=
  fun y i j =>
    arrConsumBasePrices_Deflated1 arr0 idx y i j * idx y i j / vpbIdx y

/-- Elementwise model of GRAS.inv_diag (GRAS.py, lines 84-97): inversion 1/x
with the infinity produced at x = 0 substituted by 1
(np.nan_to_num(1 / v, nan=1, posinf=1, neginf=1)); the diagonalisation by
np.diagflat is absorbed into the places of use. -/
noncomputable def invDiagEntry (x : ℝ) : ℝ := if x = 0 then 1 else 1 / x

/-- GRAS.py, line 100: mP = np.where(mA > 0, mA, 0). -/
noncomputable def mPmat {m n : ℕ} (mA : Fin m → Fin n → ℝ) :
    Fin m → Fin n → ℝ :=
  fun i j => if 0 < mA i j then mA i j else 0

/-- GRAS.py, line 101: mN = np.where(mA < 0, -mA, 0). -/
noncomputable def mNmat {m n : ℕ} (mA : Fin m → Fin n → ℝ) :
    Fin m → Fin n → ℝ :=
  fun i j => if mA i j < 0 then -mA i j else 0

/-- GRAS.py: pr = mP.T.dot(r). -/
noncomputable def prVec {m n : ℕ} (mA : Fin m → Fin n → ℝ) (r : Fin m → ℝ) :
    Fin n → ℝ :=
  fun j => ∑ i, mPmat mA i j * r i

/-- GRAS.py: nr = mN.T.dot(inv_diag(r)).dot(vOnesRows). -/
noncomputable def nrVec {m n : ℕ} (mA : Fin m → Fin n → ℝ) (r : Fin m → ℝ) :
    Fin n → ℝ :=
  fun j => ∑ i, mNmat mA i j * invDiagEntry (r i)

/-- GRAS.py, lines 117-120 (and 135-137, 169-171): the column-multiplier
update s = inv_diag(2 pr).dot(v + sqrt(v^2 + 4 pr nr)), with the fallback
s = -inv_diag(v).dot(nr) where pr = 0. -/
noncomputable def colStep {m n : ℕ} (mA : Fin m → Fin n → ℝ) (v : Fin n → ℝ)
    (r : Fin m → ℝ) : Fin n → ℝ :=
  fun j =>
    if prVec mA r j = 0 then -(invDiagEntry (v j) * nrVec mA r j)
    else
      invDiagEntry (2 * prVec mA r j) *
        (v j + Real.sqrt ((v j) ^ 2 + 4 * prVec mA r j * nrVec mA r j))

/-- GRAS.py: ps = mP.dot(s). -/
noncomputable def psVec {m n : ℕ} (mA : Fin m → Fin n → ℝ) (s : Fin n → ℝ) :
    Fin m → ℝ :=
  fun i => ∑ j, mPmat mA i j * s j

/-- GRAS.py: ns = mN.dot(inv_diag(s)).dot(vOnesCols). -/
noncomputable def nsVec {m n : ℕ} (mA : Fin m → Fin n → ℝ) (s : Fin n → ℝ) :
    Fin m → ℝ :=
  fun i => ∑ j, mNmat mA i j * invDiagEntry (s j)

/-- GRAS.py, lines 126-129 (and 161-163, 189-191): the row-multiplier update
r = inv_diag(2 ps).dot(u + sqrt(u^2 + 4 ps ns)), with the fallback
r = -inv_diag(u).dot(ns) where ps = 0. -/
noncomputable def rowStep {m n : ℕ} (mA : Fin m → Fin n → ℝ) (u : Fin m → ℝ)
    (s : Fin n → ℝ) : Fin m → ℝ :=
  fun i =>
    if psVec mA s i = 0 then -(invDiagEntry (u i) * nsVec mA s i)
    else
      invDiagEntry (2 * psVec mA s i) *
        (u i + Real.sqrt ((u i) ^ 2 + 4 * psVec mA s i * nsVec mA s i))

/-- GRAS.py, line 194: the balanced matrix
mX = diagflat(r).dot(mP).dot(diagflat(s)) - inv_diag(r).dot(mN).dot(inv_diag(s)). -/
noncomputable def reconMatrix {m n : ℕ} (mA : Fin m → Fin n → ℝ)
    (r : Fin m → ℝ) (s : Fin n → ℝ) : Fin m → Fin n → ℝ :=
  fun i j =>
    r i * mPmat mA i j * s j - invDiagEntry (r i) * mNmat mA i j * invDiagEntry (s j)

/-- GRAS.py, lines 140-142 (and 174-180): M = np.max(np.abs(s2 - s1)). -/
noncomputable def maxAbsDiff {n : ℕ} (s2 s1 : Fin n → ℝ) : ℝ :=
  ⨆ j, |s2 j - s1 j|

/-- The quadruple returned by gras: (mX, r, s, nIterations), with None
modelled by Option. -/
abbrev GrasResult (m n : ℕ) :=
  Option (Fin m → Fin n → ℝ) × Option (Fin m → ℝ) × Option (Fin n → ℝ) × ℕ

/-- GRAS.py, lines 182-196: on exit from the loop, the last-stage row
multiplier is recomputed from s = s2 and the balanced matrix is assembled. -/
noncomputable def finalize {m n : ℕ} (mA : Fin m → Fin n → ℝ) (u : Fin m → ℝ)
    (s : Fin n → ℝ) (nIterations : ℕ) : GrasResult m n :=
  (some (reconMatrix mA (rowStep mA u s) s), some (rowStep mA u s), some s,
    nIterations)

/-- GRAS.py, lines 148-180: the while loop.  State: the current column
multiplier s2, the current maximum absolute change M, and nIterations.  The
fuel argument makes the recursion structural; gras passes fuel = nMaxIter,
and since nIterations starts at 1 and increases by 1 per pass, the guard
nIterations == nMaxIter fires (returning the failure quadruple
(None, None, None, nMaxIter), lines 150-152) before fuel can run out
whenever nMaxIter >= 1.  (For nMaxIter = 0 the Python loop would never
trigger its equality guard; the embedding returns the failure quadruple.) -/
noncomputable def grasLoop {m n : ℕ} (mA : Fin m → Fin n → ℝ) (u : Fin m → ℝ)
    (v : Fin n → ℝ) (nEpsilon : ℝ) (nMaxIter : ℕ) :
    ℕ → (Fin n → ℝ) → ℝ → ℕ → GrasResult m n
  | 0, _, _, _ => (none, none, none, nMaxIter)
  | fuel + 1, s2, M, nIterations =>
    if nEpsilon < M then
      if nIterations = nMaxIter then (none, none, none, nMaxIter)
      else
        grasLoop mA u v nEpsilon nMaxIter fuel
          (colStep mA v (rowStep mA u s2))
          (maxAbsDiff (colStep mA v (rowStep mA u s2)) s2)
          (nIterations + 1)
    else finalize mA u s2 nIterations

/-- GRAS.py, lines 29-196: the gras function.  The initial guess r = 1 gives
the first-step column multiplier s1 (lines 110-120), from which the row
multiplier and the second-step column multiplier s2 are computed
(lines 122-137); the loop then starts at nIterations = 1 with
M = max |s2 - s1| (lines 139-146). -/
noncomputable def gras {m n : ℕ} (mA : Fin m → Fin n → ℝ) (u : Fin m → ℝ)
    (v : Fin n → ℝ) (nEpsilon : ℝ) (nMaxIter : ℕ) : GrasResult m n :=
  grasLoop mA u v nEpsilon nMaxIter nMaxIter
    (colStep mA v (rowStep mA u (colStep mA v fun _ => 1)))
    (maxAbsDiff (colStep mA v (rowStep mA u (colStep mA v fun _ => 1)))
      (colStep mA v fun _ => 1))
    1

/-- Concrete 1x1 input matrix for gras: a single positive cell. -/
noncomputable def grasExA : Fin 1 → Fin 1 → ℝ := fun _ _ => 1

/-- Concrete row restriction: total 2. -/
noncomputable def grasExU : Fin 1 → ℝ := fun _ => 2

/-- Concrete column restriction: total 1, infeasible against grasExU. -/
noncomputable def grasExV : Fin 1 → ℝ := fun _ => 1

/-- Claim C5: each row of the alpha matrix returned by
distribution_matrix_calcul sums to 1 whenever the row total of the
concatenated inputs is non-zero, and is identically zero — the NaN/Inf such a
row would produce are swept to 0 — whenever the row total is zero. -/
theorem distribution_row_law {p a b : ℕ} (mIntermConsum : Fin p → Fin a → ℚ)
    (mDemand : Fin p → Fin b → ℚ) (i : Fin p) :
    (vTotalProducts mIntermConsum mDemand i ≠ 0 →
      ∑ k, mDistribution mIntermConsum mDemand i k = 1) ∧
    (vTotalProducts mIntermConsum mDemand i = 0 →
      ∀ k, mDistribution mIntermConsum mDemand i k = 0) := by
  constructor
  · intro h
    have hsum : ∑ k, mDistribution mIntermConsum mDemand i k
        = (∑ k, mTotalConsum mIntermConsum mDemand i k) /
            vTotalProducts mIntermConsum mDemand i := by
      rw [Finset.sum_div]
      exact Finset.sum_congr rfl fun k _ => by simp [mDistribution, divnan, h]
    rw [hsum]
    show vTotalProducts mIntermConsum mDemand i / vTotalProducts mIntermConsum mDemand i = 1
    exact div_self h
  · intro h k
    simp [mDistribution, divnan, h]

/-- Witness for distribution_row_law at a concrete 1x1 input pair with row
total 5. -/
theorem distribution_row_law_witness :
    vTotalProducts (fun (_ : Fin 1) (_ : Fin 1) => (2 : ℚ))
        (fun (_ : Fin 1) (_ : Fin 1) => (3 : ℚ)) 0 ≠ 0 ∧
    ∑ k, mDistribution (fun (_ : Fin 1) (_ : Fin 1) => (2 : ℚ))
        (fun (_ : Fin 1) (_ : Fin 1) => (3 : ℚ)) 0 k = 1 := by
  have h : vTotalProducts (fun (_ : Fin 1) (_ : Fin 1) => (2 : ℚ))
      (fun (_ : Fin 1) (_ : Fin 1) => (3 : ℚ)) 0 ≠ 0 := by
    norm_num [vTotalProducts, mTotalConsum, Fin.sum_univ_succ, Fin.append,
      Fin.addCases]
  exact ⟨h, (distribution_row_law _ _ 0).1 h⟩

/-- Claim C8 counterexample: with a negative admitted input cell
(intermediate consumption [[2]], final demand [[-1]]), the first cell of the
alpha matrix is 2, outside [0, 1]. -/
theorem distribution_cell_above_one :
    mDistribution (fun (_ : Fin 1) (_ : Fin 1) => (2 : ℚ))
        (fun (_ : Fin 1) (_ : Fin 1) => (-1 : ℚ)) 0 (0 : Fin (1 + 1)) = 2 ∧
    ¬ mDistribution (fun (_ : Fin 1) (_ : Fin 1) => (2 : ℚ))
        (fun (_ : Fin 1) (_ : Fin 1) => (-1 : ℚ)) 0 (0 : Fin (1 + 1)) ≤ 1 := by
  have h : mDistribution (fun (_ : Fin 1) (_ : Fin 1) => (2 : ℚ))
      (fun (_ : Fin 1) (_ : Fin 1) => (-1 : ℚ)) 0 (0 : Fin (1 + 1)) = 2 := by
    norm_num [mDistribution, divnan, mTotalConsum, vTotalProducts,
      Fin.sum_univ_succ, Fin.append, Fin.addCases]
  refine ⟨h, ?_⟩
  rw [h]
  norm_num

/-- Claim C8 (amended): every cell of the alpha matrix lies in [0, 1] provided
every cell of both inputs is nonnegative; with a negative cell admitted, the
bound can fail (distribution_cell_above_one). -/
theorem distribution_cell_bounds_of_nonneg {p a b : ℕ}
    (mIntermConsum : Fin p → Fin a → ℚ) (mDemand : Fin p → Fin b → ℚ)
    (hic : ∀ i j, 0 ≤ mIntermConsum i j) (hdem : ∀ i j, 0 ≤ mDemand i j)
    (i : Fin p) (k : Fin (a + b)) :
    0 ≤ mDistribution mIntermConsum mDemand i k ∧
      mDistribution mIntermConsum mDemand i k ≤ 1 := by
  have hcell : ∀ k2 : Fin (a + b), 0 ≤ mTotalConsum mIntermConsum mDemand i k2 := by
    intro k2
    unfold mTotalConsum
    refine Fin.addCases (fun j => ?_) (fun j => ?_) k2
    · rw [Fin.append_left]; exact hic i j
    · rw [Fin.append_right]; exact hdem i j
  have hT : 0 ≤ vTotalProducts mIntermConsum mDemand i :=
    Finset.sum_nonneg fun k2 _ => hcell k2
  by_cases h : vTotalProducts mIntermConsum mDemand i = 0
  · constructor <;> simp [mDistribution, divnan, h]
  · have hTpos : 0 < vTotalProducts mIntermConsum mDemand i :=
      lt_of_le_of_ne hT (Ne.symm h)
    constructor
    · unfold mDistribution divnan
      rw [if_neg h]
      exact div_nonneg (hcell k) hT
    · unfold mDistribution divnan
      rw [if_neg h, div_le_one hTpos]
      exact Finset.single_le_sum (fun k2 _ => hcell k2) (Finset.mem_univ k)

/-- Witness for distribution_cell_bounds_of_nonneg at a nonnegative 1x1 input
pair. -/
theorem distribution_cell_bounds_witness :
    (∀ i j : Fin 1, 0 ≤ (fun (_ : Fin 1) (_ : Fin 1) => (1 : ℚ)) i j) ∧
    (∀ i j : Fin 1, 0 ≤ (fun (_ : Fin 1) (_ : Fin 1) => (0 : ℚ)) i j) ∧
    (0 ≤ mDistribution (fun (_ : Fin 1) (_ : Fin 1) => (1 : ℚ))
        (fun (_ : Fin 1) (_ : Fin 1) => (0 : ℚ)) 0 (0 : Fin (1 + 1)) ∧
      mDistribution (fun (_ : Fin 1) (_ : Fin 1) => (1 : ℚ))
        (fun (_ : Fin 1) (_ : Fin 1) => (0 : ℚ)) 0 (0 : Fin (1 + 1)) ≤ 1) := by
  refine ⟨fun _ _ => by norm_num, fun _ _ => by norm_num, ?_⟩
  exact distribution_cell_bounds_of_nonneg _ _ (fun _ _ => by norm_num)
    (fun _ _ => by norm_num) 0 0

/-- Claim C9: each column of the production-share matrix D sums to 1 when the
product total is non-zero and is identically zero when the product total is
zero; no cell is NaN (the NaN/Inf cells of a zero-total product are swept to 0
by np.nan_to_num, modelled by divnan). -/
theorem mD_column_law {p s : ℕ} (mProduction : Fin p → Fin s → ℚ) (j : Fin p) :
    (vRowTotProductionTrans mProduction j ≠ 0 → ∑ i, mD mProduction i j = 1) ∧
    (vRowTotProductionTrans mProduction j = 0 → ∀ i, mD mProduction i j = 0) := by
  constructor
  · intro h
    have hsum : ∑ i, mD mProduction i j
        = (∑ i, mProductionTrans mProduction i j) /
            vRowTotProductionTrans mProduction j := by
      rw [Finset.sum_div]
      exact Finset.sum_congr rfl fun i _ => by simp [mD, divnan, h]
    rw [hsum]
    show vRowTotProductionTrans mProduction j / vRowTotProductionTrans mProduction j = 1
    exact div_self h
  · intro h i
    simp [mD, divnan, h]

/-- Witness for mD_column_law at a concrete 2x2 production matrix in which
product 1 has zero total production: column 0 of D sums to 1 and column 1 is
all zeros (the scenario-C shape of the spec). -/
theorem mD_column_law_witness :
    (vRowTotProductionTrans
        (fun (i : Fin 2) (_ : Fin 2) => if i.val = 0 then (1 : ℚ) else 0) 0 ≠ 0 ∧
      ∑ i, mD (fun (i : Fin 2) (_ : Fin 2) => if i.val = 0 then (1 : ℚ) else 0) i 0 = 1) ∧
    (vRowTotProductionTrans
        (fun (i : Fin 2) (_ : Fin 2) => if i.val = 0 then (1 : ℚ) else 0) 1 = 0 ∧
      ∀ i, mD (fun (i : Fin 2) (_ : Fin 2) => if i.val = 0 then (1 : ℚ) else 0) i 1 = 0) := by
  have h0 : vRowTotProductionTrans
      (fun (i : Fin 2) (_ : Fin 2) => if i.val = 0 then (1 : ℚ) else 0) 0 ≠ 0 := by
    norm_num [vRowTotProductionTrans, mProductionTrans, Fin.sum_univ_two]
  have h1 : vRowTotProductionTrans
      (fun (i : Fin 2) (_ : Fin 2) => if i.val = 0 then (1 : ℚ) else 0) 1 = 0 := by
    norm_num [vRowTotProductionTrans, mProductionTrans, Fin.sum_univ_two]
  exact ⟨⟨h0, (mD_column_law _ 0).1 h0⟩, ⟨h1, (mD_column_law _ 1).2 h1⟩⟩

/-- Claim C3 counterexample: when the excluded rows of the reference column sum
to zero (rows [1, 1] of the column [[1], [0]], with an all-ones alpha), the
netting identity fails: the excluded-row sum of the allocated matrix is 0
while the non-excluded-row sum is 1, so they are not negatives of each
other. -/
theorem calculation_margin_netting_fails :
    (∑ i in Finset.univ.filter (fun i : Fin 2 => 1 ≤ i.val ∧ i.val ≤ 1),
        calculation_margin (fun (_ : Fin 2) (_ : Fin 1) => (1 : ℚ))
          (fun (i : Fin 2) (_ : Fin 1) => if i.val = 0 then (1 : ℚ) else 0)
          0 1 1 i 0) = 0 ∧
    (∑ i in Finset.univ.filter (fun i : Fin 2 => ¬(1 ≤ i.val ∧ i.val ≤ 1)),
        calculation_margin (fun (_ : Fin 2) (_ : Fin 1) => (1 : ℚ))
          (fun (i : Fin 2) (_ : Fin 1) => if i.val = 0 then (1 : ℚ) else 0)
          0 1 1 i 0) = 1 ∧
    (0 : ℚ) ≠ -1 := by
  refine ⟨?_, ?_, by norm_num⟩ <;>
    norm_num [calculation_margin, divnan, vColRef, nTotMargin, vTotMarginSector,
      Finset.sum_filter, Fin.sum_univ_two]

/-- Claim C3 (amended): the netting identity of calculation_margin — for every
column, the sum of the allocated values over the excluded rows equals the
negative of the sum over all other rows — holds provided the excluded rows of
the reference column do not sum to zero (nTotMargin ≠ 0); when they do sum to
zero, the np.nan_to_num sweep zeroes the multiplier vector and the identity
can fail (calculation_margin_netting_fails). -/
theorem calculation_margin_netting {p c o : ℕ} (mAlpha : Fin p → Fin c → ℚ)
    (mMatrixInput : Fin p → Fin o → ℚ) (nColRef : Fin o) (e1 e2 : ℕ)
    (hT : nTotMargin mMatrixInput nColRef e1 e2 ≠ 0) (j : Fin c) :
    ∑ i in Finset.univ.filter (fun i : Fin p => e1 ≤ i.val ∧ i.val ≤ e2),
        calculation_margin mAlpha mMatrixInput nColRef e1 e2 i j
      = -∑ i in Finset.univ.filter (fun i : Fin p => ¬(e1 ≤ i.val ∧ i.val ≤ e2)),
          calculation_margin mAlpha mMatrixInput nColRef e1 e2 i j := by
  have hR : ∑ i in Finset.univ.filter (fun i : Fin p => ¬(e1 ≤ i.val ∧ i.val ≤ e2)),
      calculation_margin mAlpha mMatrixInput nColRef e1 e2 i j
      = vTotMarginSector mAlpha mMatrixInput nColRef e1 e2 j := by
    unfold vTotMarginSector
    refine Finset.sum_congr rfl fun i hi => ?_
    rw [Finset.mem_filter] at hi
    simp [calculation_margin, hi.2]
  have hL : ∑ i in Finset.univ.filter (fun i : Fin p => e1 ≤ i.val ∧ i.val ≤ e2),
      calculation_margin mAlpha mMatrixInput nColRef e1 e2 i j
      = ∑ i in Finset.univ.filter (fun i : Fin p => e1 ≤ i.val ∧ i.val ≤ e2),
          -(vColRef mMatrixInput nColRef i / nTotMargin mMatrixInput nColRef e1 e2) *
            vTotMarginSector mAlpha mMatrixInput nColRef e1 e2 j := by
    refine Finset.sum_congr rfl fun i hi => ?_
    rw [Finset.mem_filter] at hi
    simp [calculation_margin, hi.2, divnan, hT]
  rw [hL, hR]
  calc
    ∑ i in Finset.univ.filter (fun i : Fin p => e1 ≤ i.val ∧ i.val ≤ e2),
        -(vColRef mMatrixInput nColRef i / nTotMargin mMatrixInput nColRef e1 e2) *
          vTotMarginSector mAlpha mMatrixInput nColRef e1 e2 j
      = -((∑ i in Finset.univ.filter (fun i : Fin p => e1 ≤ i.val ∧ i.val ≤ e2),
            vColRef mMatrixInput nColRef i) / nTotMargin mMatrixInput nColRef e1 e2 *
            vTotMarginSector mAlpha mMatrixInput nColRef e1 e2 j) := by
        rw [Finset.sum_div, Finset.sum_mul]
        simp [neg_mul]
    _ = -(nTotMargin mMatrixInput nColRef e1 e2 / nTotMargin mMatrixInput nColRef e1 e2 *
            vTotMarginSector mAlpha mMatrixInput nColRef e1 e2 j) := rfl
    _ = -vTotMarginSector mAlpha mMatrixInput nColRef e1 e2 j := by
        rw [div_self hT, one_mul]

/-- Witness for calculation_margin_netting at a concrete input with a non-zero
excluded-row margin total. -/
theorem calculation_margin_netting_witness :
    nTotMargin (fun (_ : Fin 2) (_ : Fin 1) => (2 : ℚ)) 0 1 1 ≠ 0 ∧
    ∑ i in Finset.univ.filter (fun i : Fin 2 => 1 ≤ i.val ∧ i.val ≤ 1),
        calculation_margin (fun (_ : Fin 2) (_ : Fin 1) => (1 : ℚ))
          (fun (_ : Fin 2) (_ : Fin 1) => (2 : ℚ)) 0 1 1 i 0
      = -∑ i in Finset.univ.filter (fun i : Fin 2 => ¬(1 ≤ i.val ∧ i.val ≤ 1)),
          calculation_margin (fun (_ : Fin 2) (_ : Fin 1) => (1 : ℚ))
            (fun (_ : Fin 2) (_ : Fin 1) => (2 : ℚ)) 0 1 1 i 0 := by
  have hTval : nTotMargin (fun (_ : Fin 2) (_ : Fin 1) => (2 : ℚ)) 0 1 1 = 2 := by
    unfold nTotMargin
    rw [Finset.sum_filter, Fin.sum_univ_two]
    norm_num [vColRef]
  have hT : nTotMargin (fun (_ : Fin 2) (_ : Fin 1) => (2 : ℚ)) 0 1 1 ≠ 0 := by
    rw [hTval]
    norm_num
  exact ⟨hT, calculation_margin_netting _ _ 0 1 1 hT 0⟩

/-- Claim C6: a cell of the adjusted prior-year-price matrices equals the
markdown estimate exactly when its cellwise deflator is degenerate (0, an
infinity, or NaN — i.e. when the current-year or the prior-year value is
zero), and keeps the observed prior-year value otherwise.  The np.where test
of the code covers only the 0 and infinity cases; on a NaN cell (both values
zero) the code keeps the observed zero, which equals the markdown estimate,
so the two descriptions agree on every cell. -/
theorem markdown_adjustment_exact {s q p c : ℕ}
    (curP priorP : Fin s → Fin q → ℚ) (curC priorC : Fin p → Fin c → ℚ)
    (i : Fin s) (j : Fin q) (i2 : Fin p) (j2 : Fin c) :
    (mProductionTransLY_Adjusted curP priorP i j
      = if curP i j = 0 ∨ priorP i j = 0 then
          mMarkdown_ProductionTrans curP i j * (∑ k, priorP i k)
        else priorP i j) ∧
    (mConsumBasePriceLY_Adjusted curC priorC i2 j2
      = if curC i2 j2 = 0 ∨ priorC i2 j2 = 0 then
          mMarkdown_ConsumBasePrice curC i2 j2 * (∑ k, priorC k j2)
        else priorC i2 j2) := by
  constructor
  · unfold mProductionTransLY_Adjusted
    by_cases hc : curP i j = 0 <;> by_cases hp : priorP i j = 0 <;>
      simp [hc, hp, mMarkdown_ProductionTrans]
  · unfold mConsumBasePriceLY_Adjusted
    by_cases hc : curC i2 j2 = 0 <;> by_cases hp : priorC i2 j2 = 0 <;>
      simp [hc, hp, mMarkdown_ConsumBasePrice]

/-- Slices at or below n of the chained index are final: later passes of the
chaining loop leave them unchanged. -/
theorem chainedIndex_stable {ι : Type} (d : ℕ → ι → ℚ) {y n : ℕ} (hyn : y ≤ n) :
    ∀ {m : ℕ}, n ≤ m → ∀ i, chainedIndex d m y i = chainedIndex d n y i := by
  intro m
  induction m with
  | zero =>
    intro h i
    rw [Nat.le_zero] at h
    subst h
    rfl
  | succ m ih =>
    intro h i
    rcases Nat.eq_or_lt_of_le h with heq | hlt
    · subst heq
      rfl
    · have hnm : n ≤ m := Nat.lt_succ_iff.mp hlt
      show writeYearIndex d (chainedIndex d m) (m + 1) y i = _
      unfold writeYearIndex
      rw [if_neg (by omega : ¬ y = m + 1)]
      exact ih hnm i

/-- Claim C7: every chained structural price-index series starts at 100 in
every cell at the base year (array position 0), and for every later year
1 ≤ y ≤ nYears satisfies index y = deflator y * index (y - 1).  The cell type
ι ranges over the shapes of all six structural series. -/
theorem chained_index_law {ι : Type} (d : ℕ → ι → ℚ) (nYears : ℕ) :
    (∀ i, chainedIndex d nYears 0 i = 100) ∧
    (∀ y, 1 ≤ y → y ≤ nYears → ∀ i,
      chainedIndex d nYears y i = d y i * chainedIndex d nYears (y - 1) i) := by
  constructor
  · intro i
    rw [chainedIndex_stable d (le_refl 0) (Nat.zero_le nYears) i]
    rfl
  · intro y h1 h2 i
    obtain ⟨y0, rfl⟩ : ∃ y0, y = y0 + 1 := ⟨y - 1, by omega⟩
    rw [chainedIndex_stable d (le_refl (y0 + 1)) h2 i]
    show writeYearIndex d (chainedIndex d y0) (y0 + 1) (y0 + 1) i = _
    unfold writeYearIndex
    rw [if_pos rfl]
    rw [show (y0 + 1) - 1 = y0 from rfl]
    congr 1
    exact (chainedIndex_stable d (le_refl y0) (by omega : y0 ≤ nYears) i).symm

/-- Witness for chained_index_law: a constant deflator 2 over two chained
years doubles the base value, index 1 = 2 * index 0 = 200. -/
theorem chained_index_law_witness :
    (1 : ℕ) ≤ 1 ∧ (1 : ℕ) ≤ 2 ∧
    chainedIndex (fun _ (_ : Fin 1) => (2 : ℚ)) 2 1 0
      = (fun _ (_ : Fin 1) => (2 : ℚ)) 1 0 *
          chainedIndex (fun _ (_ : Fin 1) => (2 : ℚ)) 2 0 0 ∧
    chainedIndex (fun _ (_ : Fin 1) => (2 : ℚ)) 2 1 0 = 200 := by
  refine ⟨le_refl 1, by norm_num,
    (chained_index_law (fun _ (_ : Fin 1) => (2 : ℚ)) 2).2 1 (le_refl 1)
      (by norm_num) 0, ?_⟩
  rw [show (2 : ℕ) = 1 + 1 from rfl]
  norm_num [chainedIndex, writeYearIndex, indexInit]

/-- Claim C10: for every cell whose chained cell-level index is non-zero, the
composition of the two deflation steps equals the current-price value times
100 divided by the aggregate VPB chained index: the cell-level index cancels
out of the final deflated value. -/
theorem double_deflation_cancel {p c : ℕ} (arr0 idx : ℕ → Fin p → Fin c → ℚ)
    (vpbIdx : ℕ → ℚ) (y : ℕ) (i : Fin p) (j : Fin c) (h : idx y i j ≠ 0) :
    arrConsumBasePrices_Deflated2 arr0 idx vpbIdx y i j
      = arr0 y i j * 100 / vpbIdx y := by
  unfold arrConsumBasePrices_Deflated2 arrConsumBasePrices_Deflated1
  have key : arr0 y i j / idx y i j * 100 * idx y i j = arr0 y i j * 100 := by
    field_simp
  rw [key]

/-- Witness for double_deflation_cancel: current value 6, cell index 3,
aggregate index 2 — step 1 gives 200, step 2 gives 300 = 6 * 100 / 2. -/
theorem double_deflation_cancel_witness :
    (fun (_ : ℕ) (_ : Fin 1) (_ : Fin 1) => (3 : ℚ)) 0 0 0 ≠ 0 ∧
    arrConsumBasePrices_Deflated2 (fun (_ : ℕ) (_ : Fin 1) (_ : Fin 1) => (6 : ℚ))
        (fun (_ : ℕ) (_ : Fin 1) (_ : Fin 1) => (3 : ℚ)) (fun _ => (2 : ℚ)) 0 0 0
      = (fun (_ : ℕ) (_ : Fin 1) (_ : Fin 1) => (6 : ℚ)) 0 0 0 * 100 /
          (fun (_ : ℕ) => (2 : ℚ)) 0 := by
  constructor
  · norm_num
  · exact double_deflation_cancel _ _ _ 0 0 0 (by norm_num)

/-- Every run of the gras loop either returns the failure quadruple
(None, None, None, nMaxIter) or reaches the finalisation of some column
multiplier state. -/
theorem grasLoop_cases {m n : ℕ} (mA : Fin m → Fin n → ℝ) (u : Fin m → ℝ)
    (v : Fin n → ℝ) (nEpsilon : ℝ) (nMaxIter : ℕ) :
    ∀ (fuel : ℕ) (s2 : Fin n → ℝ) (M : ℝ) (k : ℕ),
      grasLoop mA u v nEpsilon nMaxIter fuel s2 M k
          = (none, none, none, nMaxIter) ∨
        ∃ s k2, grasLoop mA u v nEpsilon nMaxIter fuel s2 M k
          = finalize mA u s k2 := by
  intro fuel
  induction fuel with
  | zero => intro s2 M k; left; rfl
  | succ f ih =>
    intro s2 M k
    show (if nEpsilon < M then _ else _) = _ ∨ ∃ s k2, (if nEpsilon < M then _ else _) = _
    by_cases h1 : nEpsilon < M
    · rw [if_pos h1]
      by_cases h2 : k = nMaxIter
      · rw [if_pos h2]; left; rfl
      · rw [if_neg h2]; exact ih _ _ _
    · rw [if_neg h1]
      right
      exact ⟨s2, k, rfl⟩

/-- Claim C2: gras either returns the recognizable failure quadruple — all
three matrix and multiplier outputs None and the iteration slot equal to
nMaxIter, exactly what the max-iterations branch of the loop produces — or
returns a fully populated result (balanced matrix and both multiplier
vectors present).  A run that stops at the iteration cap therefore never
hands back a partially converged matrix. -/
theorem gras_failure_indicator {m n : ℕ} (mA : Fin m → Fin n → ℝ)
    (u : Fin m → ℝ) (v : Fin n → ℝ) (nEpsilon : ℝ) (nMaxIter : ℕ) :
    gras mA u v nEpsilon nMaxIter = (none, none, none, nMaxIter) ∨
      ∃ X r s k, gras mA u v nEpsilon nMaxIter = (some X, some r, some s, k) := by
  rcases grasLoop_cases mA u v nEpsilon nMaxIter nMaxIter
      (colStep mA v (rowStep mA u (colStep mA v fun _ => 1)))
      (maxAbsDiff (colStep mA v (rowStep mA u (colStep mA v fun _ => 1)))
        (colStep mA v fun _ => 1)) 1 with h | ⟨s, k2, h⟩
  · left; exact h
  · right
    exact ⟨reconMatrix mA (rowStep mA u s) s, rowStep mA u s, s, k2, h⟩

/-- Structure of a successful gras run: the returned multiplier r is the
last-stage row multiplier recomputed from the returned s, and the returned
matrix is the reconstruction from those multipliers. -/
theorem gras_some_eq {m n : ℕ} (mA : Fin m → Fin n → ℝ) (u : Fin m → ℝ)
    (v : Fin n → ℝ) (nEpsilon : ℝ) (nMaxIter : ℕ) (X : Fin m → Fin n → ℝ)
    (r : Fin m → ℝ) (s : Fin n → ℝ) (k : ℕ)
    (h : gras mA u v nEpsilon nMaxIter = (some X, some r, some s, k)) :
    r = rowStep mA u s ∧ X = reconMatrix mA (rowStep mA u s) s := by
  rcases grasLoop_cases mA u v nEpsilon nMaxIter nMaxIter
      (colStep mA v (rowStep mA u (colStep mA v fun _ => 1)))
      (maxAbsDiff (colStep mA v (rowStep mA u (colStep mA v fun _ => 1)))
        (colStep mA v fun _ => 1)) 1 with hfail | ⟨s2, k2, hfin⟩
  · rw [show gras mA u v nEpsilon nMaxIter
        = grasLoop mA u v nEpsilon nMaxIter nMaxIter
            (colStep mA v (rowStep mA u (colStep mA v fun _ => 1)))
            (maxAbsDiff (colStep mA v (rowStep mA u (colStep mA v fun _ => 1)))
              (colStep mA v fun _ => 1)) 1 from rfl, hfail] at h
    simp at h
  · rw [show gras mA u v nEpsilon nMaxIter
        = grasLoop mA u v nEpsilon nMaxIter nMaxIter
            (colStep mA v (rowStep mA u (colStep mA v fun _ => 1)))
            (maxAbsDiff (colStep mA v (rowStep mA u (colStep mA v fun _ => 1)))
              (colStep mA v fun _ => 1)) 1 from rfl, hfin] at h
    unfold finalize at h
    rw [Prod.mk.injEq, Prod.mk.injEq, Prod.mk.injEq] at h
    obtain ⟨hX, hr, hs, hk⟩ := h
    rw [Option.some.injEq] at hX hr hs
    subst hs
    exact ⟨hr.symm, hX.symm⟩

/-- Unfolding equation for one pass of the gras loop. -/
theorem grasLoop_succ {m n : ℕ} (mA : Fin m → Fin n → ℝ) (u : Fin m → ℝ)
    (v : Fin n → ℝ) (nEpsilon : ℝ) (nMaxIter fuel : ℕ) (s2 : Fin n → ℝ)
    (M : ℝ) (k : ℕ) :
    grasLoop mA u v nEpsilon nMaxIter (fuel + 1) s2 M k
      = if nEpsilon < M then
          if k = nMaxIter then (none, none, none, nMaxIter)
          else
            grasLoop mA u v nEpsilon nMaxIter fuel
              (colStep mA v (rowStep mA u s2))
              (maxAbsDiff (colStep mA v (rowStep mA u s2)) s2) (k + 1)
        else finalize mA u s2 k := rfl

/-- On a one-element index type the supremum of absolute differences is the
single absolute difference. -/
theorem maxAbsDiff_one (a b : Fin 1 → ℝ) : maxAbsDiff a b = |a 0 - b 0| := by
  unfold maxAbsDiff
  exact ciSup_unique

/-- The positive part of the example matrix is all ones. -/
theorem mPmat_exA : mPmat grasExA = fun _ _ => 1 := by
  funext i j
  unfold mPmat grasExA
  rw [if_pos (by norm_num : (0 : ℝ) < 1)]

/-- The negative part of the example matrix is zero. -/
theorem mNmat_exA : mNmat grasExA = fun _ _ => 0 := by
  funext i j
  unfold mNmat grasExA
  rw [if_neg (by norm_num : ¬(1 : ℝ) < 0)]

/-- pr on the example matrix. -/
theorem prVec_exA (r : Fin 1 → ℝ) (j : Fin 1) : prVec grasExA r j = r 0 := by
  unfold prVec
  rw [Fin.sum_univ_one, mPmat_exA]
  simp

/-- nr on the example matrix. -/
theorem nrVec_exA (r : Fin 1 → ℝ) (j : Fin 1) : nrVec grasExA r j = 0 := by
  unfold nrVec
  rw [Fin.sum_univ_one, mNmat_exA]
  simp

/-- ps on the example matrix. -/
theorem psVec_exA (s : Fin 1 → ℝ) (i : Fin 1) : psVec grasExA s i = s 0 := by
  unfold psVec
  rw [Fin.sum_univ_one, mPmat_exA]
  simp

/-- ns on the example matrix. -/
theorem nsVec_exA (s : Fin 1 → ℝ) (i : Fin 1) : nsVec grasExA s i = 0 := by
  unfold nsVec
  rw [Fin.sum_univ_one, mNmat_exA]
  simp

/-- The column-multiplier update on the example input inverts the current row
multiplier. -/
theorem colStep_exA (r : Fin 1 → ℝ) (h : r 0 ≠ 0) :
    colStep grasExA grasExV r = fun _ => 1 / r 0 := by
  funext j
  simp only [colStep, grasExV]
  rw [prVec_exA, nrVec_exA, if_neg h]
  rw [show (1 : ℝ) ^ 2 + 4 * r 0 * 0 = 1 from by ring, Real.sqrt_one]
  unfold invDiagEntry
  have h2 : (2 : ℝ) * r 0 ≠ 0 := mul_ne_zero two_ne_zero h
  rw [if_neg h2, div_mul_eq_mul_div, one_mul,
    show (1 : ℝ) + 1 = 2 from by norm_num, div_eq_div_iff h2 h]
  ring

/-- The row-multiplier update on the example input sends s to 2 / s. -/
theorem rowStep_exA (s : Fin 1 → ℝ) (h : s 0 ≠ 0) :
    rowStep grasExA grasExU s = fun _ => 2 / s 0 := by
  funext i
  simp only [rowStep, grasExU]
  rw [psVec_exA, nsVec_exA, if_neg h]
  rw [show (2 : ℝ) ^ 2 + 4 * s 0 * 0 = 2 ^ 2 from by ring,
    Real.sqrt_sq (by norm_num : (0 : ℝ) ≤ 2)]
  unfold invDiagEntry
  have h2 : (2 : ℝ) * s 0 ≠ 0 := mul_ne_zero two_ne_zero h
  rw [if_neg h2, div_mul_eq_mul_div, one_mul,
    show (2 : ℝ) + 2 = 4 from by norm_num, div_eq_div_iff h2 h]
  ring

/-- Full evaluation of gras on the example input with nEpsilon = 1/4:
the multiplier change M falls from 1/2 to 1/4 after one loop pass, the run
converges at nIterations = 2, and the returned balanced matrix is [[2]]. -/
theorem gras_example :
    gras grasExA grasExU grasExV (1 / 4) 10000
      = (some fun _ _ => 2, some fun _ => 8, some fun _ => (1 / 4 : ℝ), 2) := by
  have hs1 : colStep grasExA grasExV (fun _ => (1 : ℝ)) = fun _ => 1 := by
    rw [colStep_exA _ (by norm_num)]
    funext j
    norm_num
  have hr1 : rowStep grasExA grasExU (fun _ => (1 : ℝ)) = fun _ => 2 := by
    rw [rowStep_exA _ (by norm_num)]
    funext i
    norm_num
  have hs2 : colStep grasExA grasExV (fun _ => (2 : ℝ)) = fun _ => 1 / 2 := by
    rw [colStep_exA _ (by norm_num)]
  have hM1 : maxAbsDiff (fun _ : Fin 1 => (1 / 2 : ℝ)) (fun _ => 1) = 1 / 2 := by
    rw [maxAbsDiff_one]
    norm_num
  unfold gras
  rw [hs1, hr1, hs2, hM1]
  rw [show (10000 : ℕ) = 9999 + 1 from rfl, grasLoop_succ,
    if_pos (by norm_num : (1 / 4 : ℝ) < 1 / 2),
    if_neg (by norm_num : ¬(1 : ℕ) = 9999 + 1)]
  have hr2 : rowStep grasExA grasExU (fun _ => (1 / 2 : ℝ)) = fun _ => 4 := by
    rw [rowStep_exA _ (by norm_num)]
    funext i
    norm_num
  have hs3 : colStep grasExA grasExV (fun _ => (4 : ℝ)) = fun _ => 1 / 4 := by
    rw [colStep_exA _ (by norm_num)]
  have hM2 : maxAbsDiff (fun _ : Fin 1 => (1 / 4 : ℝ)) (fun _ => 1 / 2) = 1 / 4 := by
    rw [maxAbsDiff_one]
    norm_num
  rw [hr2, hs3, hM2]
  rw [show (9999 : ℕ) = 9998 + 1 from rfl, grasLoop_succ,
    if_neg (by norm_num : ¬(1 / 4 : ℝ) < 1 / 4)]
  unfold finalize
  have hr3 : rowStep grasExA grasExU (fun _ => (1 / 4 : ℝ)) = fun _ => 8 := by
    rw [rowStep_exA _ (by norm_num)]
    funext i
    norm_num
  rw [hr3]
  have hX : reconMatrix grasExA (fun _ => (8 : ℝ)) (fun _ => 1 / 4) = fun _ _ => 2 := by
    funext i j
    unfold reconMatrix
    rw [mPmat_exA, mNmat_exA]
    simp [invDiagEntry]
    norm_num
  rw [hX]

/-- Claim C1 counterexample: on the 1x1 input [[1]] with row restriction 2,
column restriction 1 and nEpsilon = 1/4, gras converges — it returns the
balanced matrix [[2]] rather than the failure indicator — yet the column sum
of the returned matrix is 2, at distance 1 > nEpsilon from the column
restriction 1 (the convergence test bounds the change in the column
multipliers, not the column-sum residual). -/
theorem gras_converged_colsum_violation :
    (gras grasExA grasExU grasExV (1 / 4) 10000).1 = some (fun _ _ => 2) ∧
    ¬ |(∑ i : Fin 1, (fun (_ _ : Fin 1) => (2 : ℝ)) i 0) - grasExV 0| ≤ 1 / 4 := by
  constructor
  · rw [gras_example]
  · rw [Fin.sum_univ_one]
    norm_num [grasExV]

/-- Claim C1 (amended): on a successful gras run, every row i whose positive
part has a positive s-weighted sum (0 < ps i), whose negative part has a
nonnegative s-weighted sum (0 ≤ ns i), and whose row restriction or ns i is
positive, has row sum exactly equal to the row restriction u i; the column
sums, by contrast, need not lie within nEpsilon of the column restriction
(gras_converged_colsum_violation). -/
theorem gras_rowsum_exact {m n : ℕ} (mA : Fin m → Fin n → ℝ) (u : Fin m → ℝ)
    (v : Fin n → ℝ) (nEpsilon : ℝ) (nMaxIter : ℕ) {X : Fin m → Fin n → ℝ}
    {r : Fin m → ℝ} {s : Fin n → ℝ} {k : ℕ}
    (hret : gras mA u v nEpsilon nMaxIter = (some X, some r, some s, k))
    (i : Fin m) (hps : 0 < psVec mA s i) (hns : 0 ≤ nsVec mA s i)
    (hpos : 0 < u i ∨ 0 < nsVec mA s i) :
    ∑ j, X i j = u i := by
  obtain ⟨hr, hX⟩ := gras_some_eq mA u v nEpsilon nMaxIter X r s k hret
  subst hX
  have hsum : ∑ j, reconMatrix mA (rowStep mA u s) s i j
      = rowStep mA u s i * psVec mA s i
        - invDiagEntry (rowStep mA u s i) * nsVec mA s i := by
    unfold reconMatrix psVec nsVec
    rw [Finset.sum_sub_distrib]
    congr 1
    · rw [Finset.mul_sum]
      exact Finset.sum_congr rfl fun j _ => by ring
    · rw [Finset.mul_sum]
      exact Finset.sum_congr rfl fun j _ => by ring
  rw [hsum]
  have hD : 0 ≤ (u i) ^ 2 + 4 * psVec mA s i * nsVec mA s i := by
    have h4 : 0 ≤ 4 * psVec mA s i * nsVec mA s i :=
      mul_nonneg (mul_nonneg (by norm_num) hps.le) hns
    have hu2 := sq_nonneg (u i)
    linarith
  have ht2 : Real.sqrt ((u i) ^ 2 + 4 * psVec mA s i * nsVec mA s i) ^ 2
      = (u i) ^ 2 + 4 * psVec mA s i * nsVec mA s i := Real.sq_sqrt hD
  have ht0 : 0 ≤ Real.sqrt ((u i) ^ 2 + 4 * psVec mA s i * nsVec mA s i) :=
    Real.sqrt_nonneg _
  have hnum : 0 < u i + Real.sqrt ((u i) ^ 2 + 4 * psVec mA s i * nsVec mA s i) := by
    rcases hpos with hu | hn
    · linarith
    · have hlt : |u i| < Real.sqrt ((u i) ^ 2 + 4 * psVec mA s i * nsVec mA s i) := by
        calc |u i| = Real.sqrt ((u i) ^ 2) := (Real.sqrt_sq_eq_abs _).symm
          _ < _ := Real.sqrt_lt_sqrt (sq_nonneg _) (by nlinarith)
      have hna := neg_abs_le (u i)
      linarith
  have h2P : (0 : ℝ) < 2 * psVec mA s i := by linarith
  have hrstep : rowStep mA u s i
      = (u i + Real.sqrt ((u i) ^ 2 + 4 * psVec mA s i * nsVec mA s i)) /
          (2 * psVec mA s i) := by
    unfold rowStep
    rw [if_neg (ne_of_gt hps)]
    unfold invDiagEntry
    rw [if_neg (ne_of_gt h2P), one_div_mul_eq_div]
  have hrpos : (0 : ℝ) <
      (u i + Real.sqrt ((u i) ^ 2 + 4 * psVec mA s i * nsVec mA s i)) /
        (2 * psVec mA s i) := div_pos hnum h2P
  rw [hrstep]
  unfold invDiagEntry
  rw [if_neg (ne_of_gt hrpos), one_div_div]
  rw [div_mul_eq_mul_div, div_mul_eq_mul_div,
    div_sub_div _ _ (ne_of_gt h2P) (ne_of_gt hnum),
    div_eq_iff (mul_ne_zero (ne_of_gt h2P) (ne_of_gt hnum))]
  linear_combination psVec mA s i * ht2

/-- Witness for gras_rowsum_exact at the example input: ps = 1/4 > 0, ns = 0,
u = 2 > 0, and the returned matrix [[2]] has row sum 2 = u. -/
theorem gras_rowsum_exact_witness :
    gras grasExA grasExU grasExV (1 / 4) 10000
        = (some fun _ _ => 2, some fun _ => 8, some fun _ => (1 / 4 : ℝ), 2) ∧
    0 < psVec grasExA (fun _ => (1 / 4 : ℝ)) 0 ∧
    0 ≤ nsVec grasExA (fun _ => (1 / 4 : ℝ)) 0 ∧
    0 < grasExU 0 ∧
    ∑ j, (fun (_ _ : Fin 1) => (2 : ℝ)) 0 j = grasExU 0 := by
  have hps : 0 < psVec grasExA (fun _ => (1 / 4 : ℝ)) 0 := by
    rw [psVec_exA]
    norm_num
  have hns : 0 ≤ nsVec grasExA (fun _ => (1 / 4 : ℝ)) 0 := by
    rw [nsVec_exA]
  have hu : 0 < grasExU 0 := by norm_num [grasExU]
  exact ⟨gras_example, hps, hns, hu,
    gras_rowsum_exact grasExA grasExU grasExV (1 / 4) 10000 gras_example 0 hps
      hns (Or.inl hu)⟩

/-- The positive part is entrywise nonnegative. -/
theorem mPmat_nonneg {m n : ℕ} (mA : Fin m → Fin n → ℝ) (i : Fin m) (j : Fin n) :
    0 ≤ mPmat mA i j := by
  unfold mPmat
  by_cases h : 0 < mA i j
  · rw [if_pos h]; exact h.le
  · rw [if_neg h]

/-- The negative part is entrywise nonnegative. -/
theorem mNmat_nonneg {m n : ℕ} (mA : Fin m → Fin n → ℝ) (i : Fin m) (j : Fin n) :
    0 ≤ mNmat mA i j := by
  unfold mNmat
  by_cases h : mA i j < 0
  · rw [if_pos h]; linarith
  · rw [if_neg h]

/-- inv_diag of a positive entry is positive (1/x, and the 0 case is 1 > 0
anyway). -/
theorem invDiagEntry_pos {x : ℝ} (h : 0 < x) : 0 < invDiagEntry x := by
  unfold invDiagEntry
  rw [if_neg (ne_of_gt h)]
  positivity

/-- The numerator of a quadratic-root multiplier update is positive when the
linear coefficient or the product term is. -/
theorem key_pos {a b : ℝ} (_hb : 0 ≤ b) (h : 0 < a ∨ 0 < b) :
    0 < a + Real.sqrt (a ^ 2 + b) := by
  rcases h with ha | hbp
  · have := Real.sqrt_nonneg (a ^ 2 + b)
    linarith
  · have hlt : |a| < Real.sqrt (a ^ 2 + b) := by
      calc |a| = Real.sqrt (a ^ 2) := (Real.sqrt_sq_eq_abs _).symm
        _ < _ := Real.sqrt_lt_sqrt (sq_nonneg _) (by linarith)
    have := neg_abs_le a
    linarith

/-- The column-multiplier update keeps multipliers positive when every column
has a positive cell and its restriction is compatibly signed. -/
theorem colStep_pos {m n : ℕ} (mA : Fin m → Fin n → ℝ) (v : Fin n → ℝ)
    (Hcol : ∀ j, ∃ i, 0 < mA i j) (HcolSign : ∀ j, 0 < v j ∨ ∃ i, mA i j < 0)
    (r : Fin m → ℝ) (hr : ∀ i, 0 < r i) : ∀ j, 0 < colStep mA v r j := by
  intro j
  have hpr : 0 < prVec mA r j := by
    obtain ⟨i0, hi0⟩ := Hcol j
    refine Finset.sum_pos' (fun i _ => mul_nonneg (mPmat_nonneg mA i j) (hr i).le)
      ⟨i0, Finset.mem_univ i0, ?_⟩
    have hP : mPmat mA i0 j = mA i0 j := by unfold mPmat; rw [if_pos hi0]
    rw [hP]
    exact mul_pos hi0 (hr i0)
  have hnr : 0 ≤ nrVec mA r j :=
    Finset.sum_nonneg fun i _ =>
      mul_nonneg (mNmat_nonneg mA i j) (invDiagEntry_pos (hr i)).le
  unfold colStep
  rw [if_neg (ne_of_gt hpr)]
  refine mul_pos (invDiagEntry_pos (by linarith)) ?_
  refine key_pos (mul_nonneg (mul_nonneg (by norm_num) hpr.le) hnr) ?_
  rcases HcolSign j with hv | ⟨i0, hi0⟩
  · exact Or.inl hv
  · right
    have hnrp : 0 < nrVec mA r j := by
      refine Finset.sum_pos'
        (fun i _ => mul_nonneg (mNmat_nonneg mA i j) (invDiagEntry_pos (hr i)).le)
        ⟨i0, Finset.mem_univ i0, ?_⟩
      have hN : mNmat mA i0 j = -mA i0 j := by unfold mNmat; rw [if_pos hi0]
      rw [hN]
      exact mul_pos (by linarith) (invDiagEntry_pos (hr i0))
    exact mul_pos (by linarith) hnrp

/-- The row-multiplier update keeps multipliers positive when every row has a
positive cell and its restriction is compatibly signed. -/
theorem rowStep_pos {m n : ℕ} (mA : Fin m → Fin n → ℝ) (u : Fin m → ℝ)
    (Hrow : ∀ i, ∃ j, 0 < mA i j) (HrowSign : ∀ i, 0 < u i ∨ ∃ j, mA i j < 0)
    (s : Fin n → ℝ) (hs : ∀ j, 0 < s j) : ∀ i, 0 < rowStep mA u s i := by
  intro i
  have hps : 0 < psVec mA s i := by
    obtain ⟨j0, hj0⟩ := Hrow i
    refine Finset.sum_pos' (fun j _ => mul_nonneg (mPmat_nonneg mA i j) (hs j).le)
      ⟨j0, Finset.mem_univ j0, ?_⟩
    have hP : mPmat mA i j0 = mA i j0 := by unfold mPmat; rw [if_pos hj0]
    rw [hP]
    exact mul_pos hj0 (hs j0)
  have hns : 0 ≤ nsVec mA s i :=
    Finset.sum_nonneg fun j _ =>
      mul_nonneg (mNmat_nonneg mA i j) (invDiagEntry_pos (hs j)).le
  unfold rowStep
  rw [if_neg (ne_of_gt hps)]
  refine mul_pos (invDiagEntry_pos (by linarith)) ?_
  refine key_pos (mul_nonneg (mul_nonneg (by norm_num) hps.le) hns) ?_
  rcases HrowSign i with hu | ⟨j0, hj0⟩
  · exact Or.inl hu
  · right
    have hnsp : 0 < nsVec mA s i := by
      refine Finset.sum_pos'
        (fun j _ => mul_nonneg (mNmat_nonneg mA i j) (invDiagEntry_pos (hs j)).le)
        ⟨j0, Finset.mem_univ j0, ?_⟩
      have hN : mNmat mA i j0 = -mA i j0 := by unfold mNmat; rw [if_pos hj0]
      rw [hN]
      exact mul_pos (by linarith) (invDiagEntry_pos (hs j0))
    exact mul_pos (by linarith) hnsp

/-- The returned column multiplier of a successful loop run is positive
whenever the loop is entered with a positive multiplier state. -/
theorem grasLoop_pos {m n : ℕ} (mA : Fin m → Fin n → ℝ) (u : Fin m → ℝ)
    (v : Fin n → ℝ) (nEpsilon : ℝ) (nMaxIter : ℕ)
    (Hrow : ∀ i, ∃ j, 0 < mA i j) (Hcol : ∀ j, ∃ i, 0 < mA i j)
    (HrowSign : ∀ i, 0 < u i ∨ ∃ j, mA i j < 0)
    (HcolSign : ∀ j, 0 < v j ∨ ∃ i, mA i j < 0) :
    ∀ (fuel : ℕ) (s2 : Fin n → ℝ) (M : ℝ) (k : ℕ) (X : Fin m → Fin n → ℝ)
      (r : Fin m → ℝ) (s : Fin n → ℝ) (k2 : ℕ),
      (∀ j, 0 < s2 j) →
      grasLoop mA u v nEpsilon nMaxIter fuel s2 M k = (some X, some r, some s, k2) →
      ∀ j, 0 < s j := by
  intro fuel
  induction fuel with
  | zero =>
    intro s2 M k X r s k2 hs2 h
    exact absurd h (by simp [grasLoop])
  | succ f ih =>
    intro s2 M k X r s k2 hs2 h
    rw [grasLoop_succ] at h
    by_cases h1 : nEpsilon < M
    · rw [if_pos h1] at h
      by_cases hk : k = nMaxIter
      · rw [if_pos hk] at h
        exact absurd h (by simp)
      · rw [if_neg hk] at h
        exact ih _ _ _ _ _ _ _
          (fun j => colStep_pos mA v Hcol HcolSign _
            (rowStep_pos mA u Hrow HrowSign _ hs2) j) h
    · rw [if_neg h1] at h
      unfold finalize at h
      rw [Prod.mk.injEq, Prod.mk.injEq, Prod.mk.injEq] at h
      obtain ⟨_, _, hseq, _⟩ := h
      rw [Option.some.injEq] at hseq
      exact hseq ▸ hs2

/-- Claim C4: on a successful gras run over an input whose every row and
every column contains a strictly positive cell, with restrictions of
compatible sign (each row restriction positive unless the row also contains
a negative cell, and likewise for each column), the positive-part
contribution r i * P i j * s j of the output is nonnegative wherever the
input cell is strictly positive, and the sign of every output cell strictly
matches the sign of the corresponding non-zero input cell. -/
theorem gras_sign_preservation {m n : ℕ} (mA : Fin m → Fin n → ℝ)
    (u : Fin m → ℝ) (v : Fin n → ℝ) (nEpsilon : ℝ) (nMaxIter : ℕ)
    {X : Fin m → Fin n → ℝ} {r : Fin m → ℝ} {s : Fin n → ℝ} {k : ℕ}
    (Hrow : ∀ i, ∃ j, 0 < mA i j) (Hcol : ∀ j, ∃ i, 0 < mA i j)
    (HrowSign : ∀ i, 0 < u i ∨ ∃ j, mA i j < 0)
    (HcolSign : ∀ j, 0 < v j ∨ ∃ i, mA i j < 0)
    (hret : gras mA u v nEpsilon nMaxIter = (some X, some r, some s, k)) :
    ∀ i j, (0 < mA i j → 0 ≤ r i * mPmat mA i j * s j ∧ 0 < X i j) ∧
      (mA i j < 0 → X i j < 0) := by
  have hs : ∀ j, 0 < s j := by
    refine grasLoop_pos mA u v nEpsilon nMaxIter Hrow Hcol HrowSign HcolSign
      nMaxIter _ _ 1 X r s k (fun j => ?_) hret
    exact colStep_pos mA v Hcol HcolSign _
      (rowStep_pos mA u Hrow HrowSign _
        (colStep_pos mA v Hcol HcolSign _ fun _ => one_pos)) j
  obtain ⟨hr, hX⟩ := gras_some_eq mA u v nEpsilon nMaxIter X r s k hret
  have hrpos : ∀ i, 0 < r i := by
    rw [hr]
    exact rowStep_pos mA u Hrow HrowSign s hs
  intro i j
  constructor
  · intro hij
    have hP : mPmat mA i j = mA i j := by unfold mPmat; rw [if_pos hij]
    have hN : mNmat mA i j = 0 := by unfold mNmat; rw [if_neg (by linarith)]
    refine ⟨mul_nonneg (mul_nonneg (hrpos i).le (mPmat_nonneg mA i j)) (hs j).le, ?_⟩
    rw [hX, ← hr]
    unfold reconMatrix
    rw [hP, hN]
    nlinarith [mul_pos (mul_pos (hrpos i) hij) (hs j)]
  · intro hij
    have hP : mPmat mA i j = 0 := by unfold mPmat; rw [if_neg (by linarith)]
    have hN : mNmat mA i j = -mA i j := by unfold mNmat; rw [if_pos hij]
    rw [hX, ← hr]
    unfold reconMatrix
    rw [hP, hN]
    have h1 : 0 < invDiagEntry (r i) := invDiagEntry_pos (hrpos i)
    have h2 : 0 < invDiagEntry (s j) := invDiagEntry_pos (hs j)
    have h3 : 0 < -mA i j := by linarith
    nlinarith [mul_pos (mul_pos h1 h3) h2]

/-- Witness for gras_sign_preservation at the example input: the single input
cell is 1 > 0, the positive-part contribution 8 * 1 * (1/4) is nonnegative,
and the output cell 2 is positive. -/
theorem gras_sign_preservation_witness :
    0 < grasExA 0 0 ∧
    0 ≤ (fun _ : Fin 1 => (8 : ℝ)) 0 * mPmat grasExA 0 0 *
        (fun _ : Fin 1 => (1 / 4 : ℝ)) 0 ∧
    0 < (fun (_ _ : Fin 1) => (2 : ℝ)) 0 0 := by
  have hA : (0 : ℝ) < grasExA 0 0 := by norm_num [grasExA]
  have h := gras_sign_preservation grasExA grasExU grasExV (1 / 4) 10000
    (fun _ => ⟨0, by norm_num [grasExA]⟩) (fun _ => ⟨0, by norm_num [grasExA]⟩)
    (fun _ => Or.inl (by norm_num [grasExU]))
    (fun _ => Or.inl (by norm_num [grasExV])) gras_example
  obtain ⟨hpos, -⟩ := h 0 0
  exact ⟨hA, hpos hA⟩

end Estima
